import Mathlib

/-!
Verification of the Stegos view-change collector (consensus/src/optimistic.rs)
and the Kademlia discovery behaviour (network/src/kad/behaviour.rs),
via a shallow embedding in Lean 4.

Types that live outside the provided sources (crypto primitives, ChainInfo,
ViewChangeProof, check_supermajority, the k-bucket table, the LRU cache) are
modelled from the specification; each such definition is marked
"Modelled from the spec".
-/

set_option maxHeartbeats 1000000

/-! ## Basic identifiers -/

abbrev ValidatorId := Nat
abbrev BlockHash := Nat
abbrev PublicKey := Nat
abbrev SecretKey := Nat

/-- ChainInfo: value object summarising the current tip
(height, last-block hash, view-change counter). -/
structure ChainInfo where
  height : Nat
  last_block : BlockHash
  view_change : Nat
deriving DecidableEq

/-- Modelled from the spec: the hash function is treated as collision-free,
so the digest of a ChainInfo is modelled as the ChainInfo itself. -/
abbrev Digest := ChainInfo

/-- Modelled from the spec: Hash::digest of a ChainInfo. -/
def Hash.digest (c : ChainInfo) : Digest := c

/-- Modelled from the spec: a BLS-like signature is an ideal signature,
recording the signed digest and the signer's public key. -/
structure Signature where
  msg : Digest
  signer : PublicKey
deriving DecidableEq

/-- Modelled from the spec: public key derived from a secret key. -/
def pkOf (sk : SecretKey) : PublicKey := sk

/-- Modelled from the spec: secure::sign_hash. -/
def sign_hash (h : Digest) (sk : SecretKey) : Signature := ⟨h, pkOf sk⟩

/-- Modelled from the spec: secure::check_hash succeeds iff the signature was
produced over this digest by the holder of the given public key. -/
def check_hash (h : Digest) (sig : Signature) (pk : PublicKey) : Bool :=
  sig = ⟨h, pk⟩

/-- Modelled from the spec: the read-only Blockchain view used by the
collector (height, last-block hash, view-change counter, ordered validator
list with stakes). -/
structure Blockchain where
  height : Nat
  last_block_hash : BlockHash
  view_change : Nat
  validators : List (PublicKey × Int)
deriving DecidableEq

/-- Modelled from the spec: total stake of the validator set. -/
def Blockchain.total_slots (bc : Blockchain) : Int :=
  (bc.validators.map Prod.snd).sum

/-- Modelled from the spec: strict greater-than-two-thirds supermajority
check over stakes. -/
def check_supermajority (got total : Int) : Bool :=
  got * 3 > total * 2

/-- Stake of validator number `id` in a validator list (0 when out of range). -/
def stakeAtL (v : List (PublicKey × Int)) (id : ValidatorId) : Int :=
  ((v[id]?).map Prod.snd).getD 0

/-- Stake of validator number `id` in the current validator set. -/
def Blockchain.stakeAt (bc : Blockchain) (id : ValidatorId) : Int :=
  stakeAtL bc.validators id

/-- Sum of the stakes of a list of validator ids. -/
def stakeSum (v : List (PublicKey × Int)) (ids : List ValidatorId) : Int :=
  (ids.map (stakeAtL v)).sum

/-- Modelled from the spec: collector error taxonomy, with the payloads used
at the call sites in optimistic.rs. -/
inductive ConsensusError where
  | InvalidViewChangeHeight (got expected : Nat)
  | InvalidLastBlockHash (got expected : BlockHash)
  | InvalidViewChangeCounter (got expected : Nat)
  | InvalidValidatorId (id : ValidatorId)
  | InvalidViewChangeSignature
deriving DecidableEq

/-! ## ViewChangeMessage and ViewChangeProof -/

/-- One validator's signed vote over a ChainInfo. -/
structure ViewChangeMessage where
  chain : ChainInfo
  validator_id : ValidatorId
  signature : Signature
deriving DecidableEq

/-- Modelled from the spec: ChainInfo::from_blockchain summarises the tip. -/
def ChainInfo.from_blockchain (bc : Blockchain) : ChainInfo :=
  ⟨bc.height, bc.last_block_hash, bc.view_change⟩

/-- ViewChangeMessage::new: sign the digest of the chain info. -/
def ViewChangeMessage.new (chain : ChainInfo) (validator_id : ValidatorId)
    (skey : SecretKey) : ViewChangeMessage :=
  ⟨chain, validator_id, sign_hash (Hash.digest chain) skey⟩

/-- ViewChangeMessage::validate: check the validator id range, then the
signature under that validator's key. -/
def ViewChangeMessage.validate (m : ViewChangeMessage) (bc : Blockchain) :
    Except ConsensusError Unit :=
  if bc.validators.length ≤ m.validator_id then
    .error (.InvalidValidatorId m.validator_id)
  else
    let hash := Hash.digest m.chain
    let author := ((bc.validators[m.validator_id]?).map Prod.fst).getD 0
    if check_hash hash m.signature author then .ok ()
    else .error .InvalidViewChangeSignature

/-- Modelled from the spec: a ViewChangeProof is a bitmap of the contributing
validator indices together with the combined multi-signature; the aggregate
is modelled as the list of contributed signatures. -/
structure ViewChangeProof where
  multimap : List ValidatorId
  multisig : List Signature
deriving DecidableEq

/-- Modelled from the spec: ViewChangeProof::new aggregates the per-validator
signatures. -/
def ViewChangeProof.new (sigs : List (ValidatorId × Signature)) : ViewChangeProof :=
  ⟨sigs.map Prod.fst, sigs.map Prod.snd⟩

/-! ## ViewChangeCollector -/

/-- The view-change collector state. The HashMap of votes is embedded as an
association list (keys are unique because insertion is guarded by a lookup). -/
structure ViewChangeCollector where
  actual_view_changes : List (ValidatorId × ViewChangeMessage)
  collected_slots : Int
  validator_id : Option ValidatorId
  pkey : PublicKey
  skey : SecretKey
deriving DecidableEq

/-- Is the current node an active validator. -/
def ViewChangeCollector.is_validator (s : ViewChangeCollector) : Bool :=
  s.validator_id.isSome

/-- Reset collector to initial state. -/
def ViewChangeCollector.reset (s : ViewChangeCollector) : ViewChangeCollector :=
  { s with actual_view_changes := [], collected_slots := 0 }

/-- The accumulation step of handle_message: insert the message and add the
validator's stake when the slot is empty; otherwise leave the state as is. -/
def ViewChangeCollector.insertStep (s : ViewChangeCollector) (bc : Blockchain)
    (m : ViewChangeMessage) : ViewChangeCollector :=
  if (s.actual_view_changes.lookup m.validator_id).isNone then
    { s with
      actual_view_changes := (m.validator_id, m) :: s.actual_view_changes,
      collected_slots := s.collected_slots + bc.stakeAt m.validator_id }
  else s

/-- ViewChangeCollector::handle_message. Returns the (possibly unchanged)
state together with the result; every early error return leaves the state
exactly as it was, mirroring the Rust method on `&mut self`. -/
def ViewChangeCollector.handle_message (s : ViewChangeCollector)
    (bc : Blockchain) (m : ViewChangeMessage) :
    ViewChangeCollector × Except ConsensusError (Option ViewChangeProof) :=
  if s.is_validator = false then (s, .ok none)
  else if m.chain.height ≠ bc.height then
    (s, .error (.InvalidViewChangeHeight m.chain.height bc.height))
  else if m.chain.last_block ≠ bc.last_block_hash then
    (s, .error (.InvalidLastBlockHash m.chain.last_block bc.last_block_hash))
  else if m.chain.view_change ≠ bc.view_change then
    (s, .error (.InvalidViewChangeCounter m.chain.view_change bc.view_change))
  else
    match m.validate bc with
    | .error e => (s, .error e)
    | .ok _ =>
      if check_supermajority (s.insertStep bc m).collected_slots bc.total_slots then
        ((s.insertStep bc m).reset,
         .ok (some (ViewChangeProof.new
           ((s.insertStep bc m).actual_view_changes.map fun p => (p.1, p.2.signature)))))
      else (s.insertStep bc m, .ok none)

/-- ViewChangeCollector::handle_timeout: construct and sign this validator's
own view-change message; the collector state itself is untouched. -/
def ViewChangeCollector.handle_timeout (s : ViewChangeCollector)
    (bc : Blockchain) : ViewChangeCollector × Option ViewChangeMessage :=
  match s.validator_id with
  | none => (s, none)
  | some id =>
    (s, some (ViewChangeMessage.new (ChainInfo.from_blockchain bc) id s.skey))

/-- ViewChangeCollector::on_new_payment_block: reset the accumulators, but
only when this node is a validator. -/
def ViewChangeCollector.on_new_payment_block (s : ViewChangeCollector)
    (_bc : Blockchain) : ViewChangeCollector :=
  if s.is_validator = false then s else s.reset

/-- ViewChangeCollector::on_new_consensus: recompute validator_id by scanning
the validator list for this node's public key, and reset the accumulators. -/
def ViewChangeCollector.on_new_consensus (s : ViewChangeCollector)
    (bc : Blockchain) : ViewChangeCollector :=
  let vid := (bc.validators.enum.find? fun p => p.2.1 == s.pkey).map Prod.fst
  { s.reset with validator_id := vid }

/-- ViewChangeCollector::new. -/
def ViewChangeCollector.new (bc : Blockchain) (pkey : PublicKey)
    (skey : SecretKey) : ViewChangeCollector :=
  (ViewChangeCollector.mk [] 0 none pkey skey).on_new_consensus bc

/-! ## Collector event traces -/

/-- One external or internal collector event, together with the blockchain
view it is delivered against. -/
inductive CollectorOp where
  | msg (bc : Blockchain) (m : ViewChangeMessage)
  | timeout (bc : Blockchain)
  | newBlock (bc : Blockchain)
  | newConsensus (bc : Blockchain)

/-- The blockchain view an operation is delivered against. -/
def CollectorOp.bc : CollectorOp → Blockchain
  | .msg b _ => b
  | .timeout b => b
  | .newBlock b => b
  | .newConsensus b => b

/-- State transition of one collector operation. -/
def collectorStep (s : ViewChangeCollector) : CollectorOp → ViewChangeCollector
  | .msg bc m => (s.handle_message bc m).1
  | .timeout bc => (s.handle_timeout bc).1
  | .newBlock bc => s.on_new_payment_block bc
  | .newConsensus bc => s.on_new_consensus bc

/-- Run a sequence of collector operations. -/
def collectorExec (s : ViewChangeCollector) (ops : List CollectorOp) :
    ViewChangeCollector :=
  ops.foldl collectorStep s

/-- The validator set in force after a sequence of operations (it changes
only at on_new_consensus). -/
def valsAfter (v : List (PublicKey × Int)) : List CollectorOp → List (PublicKey × Int)
  | [] => v
  | .newConsensus bc :: rest => valsAfter bc.validators rest
  | _ :: rest => valsAfter v rest

/-- A trace is well-formed when every operation between two on_new_consensus
calls sees the validator set installed by the last on_new_consensus. -/
def opsOK (v : List (PublicKey × Int)) : List CollectorOp → Bool
  | [] => true
  | .newConsensus bc :: rest => opsOK bc.validators rest
  | op :: rest => decide (op.bc.validators = v) && opsOK v rest

/-- The stake-accounting invariant: collected_slots is the summed stake of
the validators whose votes are stored. -/
def collectorInv (v : List (PublicKey × Int)) (s : ViewChangeCollector) : Prop :=
  s.collected_slots = stakeSum v (s.actual_view_changes.map Prod.fst)

/-- Reachability invariant: a collector that is not a validator holds no
votes and no stake. -/
def nonValInv (s : ViewChangeCollector) : Prop :=
  s.validator_id = none →
    s.actual_view_changes = [] ∧ s.collected_slots = 0

/-! ## Collector helper lemmas -/

lemma handle_timeout_fst (s : ViewChangeCollector) (bc : Blockchain) :
    (s.handle_timeout bc).1 = s := by
  unfold ViewChangeCollector.handle_timeout
  cases s.validator_id <;> rfl

lemma insertStep_validator_id (s : ViewChangeCollector) (bc : Blockchain)
    (m : ViewChangeMessage) :
    (s.insertStep bc m).validator_id = s.validator_id := by
  unfold ViewChangeCollector.insertStep
  split <;> simp

lemma reset_validator_id (s : ViewChangeCollector) :
    s.reset.validator_id = s.validator_id := rfl

lemma handle_message_fst_cases (s : ViewChangeCollector) (bc : Blockchain)
    (m : ViewChangeMessage) :
    (s.handle_message bc m).1 = s ∨
    (s.handle_message bc m).1 = s.insertStep bc m ∨
    (s.handle_message bc m).1 = (s.insertStep bc m).reset := by
  unfold ViewChangeCollector.handle_message
  split
  · exact Or.inl rfl
  split
  · exact Or.inl rfl
  split
  · exact Or.inl rfl
  split
  · exact Or.inl rfl
  split
  · exact Or.inl rfl
  split
  · exact Or.inr (Or.inr rfl)
  · exact Or.inr (Or.inl rfl)

lemma handle_message_validator_id (s : ViewChangeCollector) (bc : Blockchain)
    (m : ViewChangeMessage) :
    (s.handle_message bc m).1.validator_id = s.validator_id := by
  rcases handle_message_fst_cases s bc m with h | h | h <;>
    simp [h, insertStep_validator_id, reset_validator_id]

lemma handle_message_not_validator (s : ViewChangeCollector) (bc : Blockchain)
    (m : ViewChangeMessage) (h : s.is_validator = false) :
    s.handle_message bc m = (s, .ok none) := by
  simp [ViewChangeCollector.handle_message, h]

lemma insertStep_inv {v : List (PublicKey × Int)} {s : ViewChangeCollector}
    {bc : Blockchain} {m : ViewChangeMessage}
    (hbc : bc.validators = v) (h : collectorInv v s) :
    collectorInv v (s.insertStep bc m) := by
  unfold ViewChangeCollector.insertStep
  split
  · simp only [collectorInv, List.map_cons, stakeSum, List.sum_cons] at h ⊢
    rw [h, Blockchain.stakeAt, hbc]
    omega
  · exact h

lemma collectorInv_of_empty (v : List (PublicKey × Int))
    (s : ViewChangeCollector) (h1 : s.actual_view_changes = [])
    (h2 : s.collected_slots = 0) : collectorInv v s := by
  simp [collectorInv, h1, h2, stakeSum]

lemma reset_inv (v : List (PublicKey × Int)) (s : ViewChangeCollector) :
    collectorInv v s.reset :=
  collectorInv_of_empty v _ rfl rfl

lemma handle_message_inv {v : List (PublicKey × Int)} {s : ViewChangeCollector}
    {bc : Blockchain} {m : ViewChangeMessage}
    (hbc : bc.validators = v) (h : collectorInv v s) :
    collectorInv v (s.handle_message bc m).1 := by
  rcases handle_message_fst_cases s bc m with hc | hc | hc <;> rw [hc]
  · exact h
  · exact insertStep_inv hbc h
  · exact reset_inv v _

lemma on_new_payment_block_inv {v : List (PublicKey × Int)}
    {s : ViewChangeCollector} {bc : Blockchain} (h : collectorInv v s) :
    collectorInv v (s.on_new_payment_block bc) := by
  unfold ViewChangeCollector.on_new_payment_block
  split
  · exact h
  · exact reset_inv v _

lemma on_new_consensus_inv (v : List (PublicKey × Int))
    (s : ViewChangeCollector) (bc : Blockchain) :
    collectorInv v (s.on_new_consensus bc) :=
  collectorInv_of_empty v _ rfl rfl

lemma collectorExec_inv :
    ∀ (ops : List CollectorOp) (v : List (PublicKey × Int))
      (s : ViewChangeCollector),
      collectorInv v s → opsOK v ops = true →
      collectorInv (valsAfter v ops) (collectorExec s ops) := by
  intro ops
  induction ops with
  | nil => intro v s h _; exact h
  | cons op rest ih =>
    intro v s h hok
    cases op with
    | msg bc m =>
      simp only [opsOK, Bool.and_eq_true, decide_eq_true_eq] at hok
      simpa [collectorExec, valsAfter, List.foldl_cons, collectorStep] using
        ih v _ (handle_message_inv hok.1 h) hok.2
    | timeout bc =>
      simp only [opsOK, Bool.and_eq_true, decide_eq_true_eq] at hok
      simpa [collectorExec, valsAfter, List.foldl_cons, collectorStep,
        handle_timeout_fst] using ih v _ h hok.2
    | newBlock bc =>
      simp only [opsOK, Bool.and_eq_true, decide_eq_true_eq] at hok
      simpa [collectorExec, valsAfter, List.foldl_cons, collectorStep] using
        ih v _ (on_new_payment_block_inv h) hok.2
    | newConsensus bc =>
      simp only [opsOK] at hok
      simpa [collectorExec, valsAfter, List.foldl_cons, collectorStep] using
        ih bc.validators _ (on_new_consensus_inv _ s bc) hok

lemma nonValInv_step (s : ViewChangeCollector) (op : CollectorOp)
    (h : nonValInv s) : nonValInv (collectorStep s op) := by
  cases op with
  | msg bc m =>
    intro hnone
    rw [collectorStep] at hnone ⊢
    rw [handle_message_validator_id] at hnone
    have hnv : s.is_validator = false := by
      simp [ViewChangeCollector.is_validator, hnone]
    rw [handle_message_not_validator s bc m hnv]
    exact h hnone
  | timeout bc =>
    intro hnone
    rw [collectorStep, handle_timeout_fst] at hnone ⊢
    exact h hnone
  | newBlock bc =>
    intro hnone
    rw [collectorStep] at hnone ⊢
    unfold ViewChangeCollector.on_new_payment_block at hnone ⊢
    split at hnone
    · next hnv => rw [if_pos hnv]; exact h hnone
    · next hnv => rw [if_neg hnv]; exact ⟨rfl, rfl⟩
  | newConsensus bc =>
    intro _
    exact ⟨rfl, rfl⟩

lemma nonValInv_exec (s : ViewChangeCollector) (ops : List CollectorOp)
    (h : nonValInv s) : nonValInv (collectorExec s ops) := by
  induction ops generalizing s with
  | nil => exact h
  | cons op rest ih =>
    exact ih (collectorStep s op) (nonValInv_step s op h)

lemma nonValInv_new (bc : Blockchain) (pk : PublicKey) (sk : SecretKey) :
    nonValInv (ViewChangeCollector.new bc pk sk) := by
  intro _
  exact ⟨rfl, rfl⟩

lemma handle_message_valid (s : ViewChangeCollector) (bc : Blockchain)
    (m : ViewChangeMessage)
    (hv : s.is_validator = true) (hh : m.chain.height = bc.height)
    (hl : m.chain.last_block = bc.last_block_hash)
    (hc : m.chain.view_change = bc.view_change)
    (hval : m.validate bc = .ok ()) :
    s.handle_message bc m =
      if check_supermajority (s.insertStep bc m).collected_slots bc.total_slots then
        ((s.insertStep bc m).reset,
         .ok (some (ViewChangeProof.new
           ((s.insertStep bc m).actual_view_changes.map fun p => (p.1, p.2.signature)))))
      else (s.insertStep bc m, .ok none) := by
  simp [ViewChangeCollector.handle_message, hv, hh, hl, hc, hval]

/-- Claim C1: when an accepted view-change message makes the accumulated
stake pass check_supermajority, handle_message aggregates exactly the stored
signatures into a ViewChangeProof, resets the accumulator, and returns
Ok(Some(proof)) whose contributors' summed stake is strictly greater than
2/3 of the total stake; in every other non-error case it returns Ok(None). -/
theorem handle_message_supermajority_emits_proof (s : ViewChangeCollector)
    (bc : Blockchain) (m : ViewChangeMessage)
    (hInv : collectorInv bc.validators s)
    (hv : s.is_validator = true) (hh : m.chain.height = bc.height)
    (hl : m.chain.last_block = bc.last_block_hash)
    (hc : m.chain.view_change = bc.view_change)
    (hval : m.validate bc = .ok ()) :
    (check_supermajority (s.insertStep bc m).collected_slots bc.total_slots = true →
      s.handle_message bc m =
        ((s.insertStep bc m).reset,
         .ok (some (ViewChangeProof.new
           ((s.insertStep bc m).actual_view_changes.map fun p => (p.1, p.2.signature))))) ∧
      ((s.insertStep bc m).reset).actual_view_changes = [] ∧
      ((s.insertStep bc m).reset).collected_slots = 0 ∧
      3 * stakeSum bc.validators
          (ViewChangeProof.new
            ((s.insertStep bc m).actual_view_changes.map fun p =>
              (p.1, p.2.signature))).multimap >
        2 * bc.total_slots) ∧
    (check_supermajority (s.insertStep bc m).collected_slots bc.total_slots = false →
      s.handle_message bc m = (s.insertStep bc m, .ok none)) := by
  have hrun := handle_message_valid s bc m hv hh hl hc hval
  have hinv1 : collectorInv bc.validators (s.insertStep bc m) :=
    insertStep_inv rfl hInv
  constructor
  · intro hsm
    rw [hrun, if_pos hsm]
    refine ⟨rfl, rfl, rfl, ?_⟩
    have hmap : (ViewChangeProof.new
        ((s.insertStep bc m).actual_view_changes.map fun p =>
          (p.1, p.2.signature))).multimap =
        (s.insertStep bc m).actual_view_changes.map Prod.fst := by
      simp [ViewChangeProof.new, List.map_map, Function.comp]
    rw [hmap, ← hinv1]
    have := of_decide_eq_true hsm
    omega
  · intro hsm
    rw [hrun, if_neg (by simp [hsm])]

/-- Concrete collector state for the Claim C1 witness. -/
def c1S : ViewChangeCollector :=
  ⟨[(1, ⟨⟨5, 7, 2⟩, 1, ⟨⟨5, 7, 2⟩, 1⟩⟩), (2, ⟨⟨5, 7, 2⟩, 2, ⟨⟨5, 7, 2⟩, 2⟩⟩)],
   2, some 0, 0, 0⟩

/-- Concrete blockchain view for the Claim C1 witness. -/
def c1BC : Blockchain := ⟨5, 7, 2, [(0, 1), (1, 1), (2, 1), (3, 1)]⟩

/-- Concrete incoming message for the Claim C1 witness. -/
def c1M : ViewChangeMessage := ⟨⟨5, 7, 2⟩, 3, ⟨⟨5, 7, 2⟩, 3⟩⟩

/-- Witness for Claim C1: with four validators of stake 1 each and two votes
already collected, a third valid vote crosses the supermajority threshold
and the proof over the three stored signatures is emitted. -/
theorem handle_message_supermajority_emits_proof_witness :
    check_supermajority ((c1S.insertStep c1BC c1M).collected_slots)
      c1BC.total_slots = true ∧
    c1S.handle_message c1BC c1M =
      ((c1S.insertStep c1BC c1M).reset,
       .ok (some (ViewChangeProof.new
         ((c1S.insertStep c1BC c1M).actual_view_changes.map fun p =>
           (p.1, p.2.signature))))) :=
  ⟨by decide,
   ((handle_message_supermajority_emits_proof c1S c1BC c1M rfl rfl rfl rfl rfl
      rfl).1 (by decide)).1⟩

/-- Claim C2: for a validator node, handle_message rejects with the typed
error of the first failing check, in the order height, last-block hash,
view-change counter, validator-id range, signature; every error return
leaves the collector state untouched, and a non-validator node returns
Ok(None) without mutating anything. -/
theorem handle_message_error_order (s : ViewChangeCollector) (bc : Blockchain)
    (m : ViewChangeMessage) :
    (s.is_validator = false → s.handle_message bc m = (s, .ok none)) ∧
    (s.is_validator = true →
      (m.chain.height ≠ bc.height →
        s.handle_message bc m =
          (s, .error (.InvalidViewChangeHeight m.chain.height bc.height))) ∧
      (m.chain.height = bc.height → m.chain.last_block ≠ bc.last_block_hash →
        s.handle_message bc m =
          (s, .error (.InvalidLastBlockHash m.chain.last_block bc.last_block_hash))) ∧
      (m.chain.height = bc.height → m.chain.last_block = bc.last_block_hash →
        m.chain.view_change ≠ bc.view_change →
        s.handle_message bc m =
          (s, .error (.InvalidViewChangeCounter m.chain.view_change bc.view_change))) ∧
      (m.chain.height = bc.height → m.chain.last_block = bc.last_block_hash →
        m.chain.view_change = bc.view_change →
        bc.validators.length ≤ m.validator_id →
        s.handle_message bc m = (s, .error (.InvalidValidatorId m.validator_id))) ∧
      (m.chain.height = bc.height → m.chain.last_block = bc.last_block_hash →
        m.chain.view_change = bc.view_change →
        m.validator_id < bc.validators.length →
        check_hash (Hash.digest m.chain) m.signature
          ((bc.validators[m.validator_id]?.map Prod.fst).getD 0) = false →
        s.handle_message bc m = (s, .error .InvalidViewChangeSignature))) ∧
    (∀ e, (s.handle_message bc m).2 = .error e → (s.handle_message bc m).1 = s) := by
  refine ⟨?_, ?_, ?_⟩
  · intro h
    exact handle_message_not_validator s bc m h
  · intro hv
    refine ⟨?_, ?_, ?_, ?_, ?_⟩
    · intro hh
      simp [ViewChangeCollector.handle_message, hv, hh]
    · intro hh hl
      simp [ViewChangeCollector.handle_message, hv, hh, hl]
    · intro hh hl hc
      simp [ViewChangeCollector.handle_message, hv, hh, hl, hc]
    · intro hh hl hc hid
      simp [ViewChangeCollector.handle_message, ViewChangeMessage.validate,
        hv, hh, hl, hc, hid]
    · intro hh hl hc hid hsig
      simp [ViewChangeCollector.handle_message, ViewChangeMessage.validate,
        hv, hh, hl, hc, Nat.not_le.mpr hid, hsig]
  · intro e he
    by_cases h1 : s.is_validator = false
    · simp [ViewChangeCollector.handle_message, h1] at he
    · by_cases h2 : m.chain.height ≠ bc.height
      · simp [ViewChangeCollector.handle_message, h1, h2]
      · by_cases h3 : m.chain.last_block ≠ bc.last_block_hash
        · simp [ViewChangeCollector.handle_message, h1, h2, h3]
        · by_cases h4 : m.chain.view_change ≠ bc.view_change
          · simp [ViewChangeCollector.handle_message, h1, h2, h3, h4]
          · rcases hvv : m.validate bc with e' | u
            · simp [ViewChangeCollector.handle_message, h1, h2, h3, h4, hvv]
            · exfalso
              have hv : s.is_validator = true := by
                cases hb : s.is_validator
                · exact absurd hb h1
                · rfl
              have hrun := handle_message_valid s bc m hv (not_not.mp h2)
                (not_not.mp h3) (not_not.mp h4) (by rw [hvv])
              rw [hrun] at he
              split at he <;> exact Except.noConfusion he

/-- Witness for Claim C2: a message whose height is stale is rejected with
InvalidViewChangeHeight carrying the message and chain heights. -/
theorem handle_message_error_order_witness :
    c1S.handle_message (Blockchain.mk 6 7 2 [(0, 1), (1, 1), (2, 1), (3, 1)]) c1M =
      (c1S, .error (.InvalidViewChangeHeight 5 6)) :=
  (handle_message_error_order c1S
      (Blockchain.mk 6 7 2 [(0, 1), (1, 1), (2, 1), (3, 1)]) c1M).2.1 rfl |>.1
    (by decide)

/-- Concrete collector state for the Claim C3 counterexample: two votes of
stake 1 each already collected out of a total stake of 4. -/
def c3S : ViewChangeCollector :=
  ⟨[(1, ⟨⟨5, 7, 2⟩, 1, ⟨⟨5, 7, 2⟩, 1⟩⟩), (2, ⟨⟨5, 7, 2⟩, 2, ⟨⟨5, 7, 2⟩, 2⟩⟩)],
   2, some 0, 0, 0⟩

/-- Concrete blockchain view for the Claim C3 counterexample. -/
def c3BC : Blockchain := ⟨5, 7, 2, [(0, 1), (1, 1), (2, 1), (3, 1)]⟩

/-- Concrete duplicated message for the Claim C3 counterexample: a fully
valid vote by validator 3, delivered twice. -/
def c3M : ViewChangeMessage := ⟨⟨5, 7, 2⟩, 3, ⟨⟨5, 7, 2⟩, 3⟩⟩

/-- Counterexample for Claim C3: the claim as frozen quantifies over every
collector state, but when the first copy of the vote crosses the
supermajority threshold, handle_message emits the proof and resets the
accumulator, and the duplicate copy is then inserted into the emptied map
and its stake added again. Here the message is fully valid, the slot is
empty after the first call (the reset), and the duplicate call inserts the
message and increases collected_slots by validator 3's stake, contradicting
that the duplicate call does not insert anything. -/
theorem handle_message_duplicate_idempotent_counterexample :
    c3M.validate c3BC = Except.ok () ∧
    c3M.chain.height = c3BC.height ∧
    c3M.chain.last_block = c3BC.last_block_hash ∧
    c3M.chain.view_change = c3BC.view_change ∧
    (c3S.handle_message c3BC c3M).1.actual_view_changes.lookup
      c3M.validator_id = none ∧
    ((c3S.handle_message c3BC c3M).1.handle_message c3BC
        c3M).1.actual_view_changes.lookup c3M.validator_id = some c3M ∧
    ((c3S.handle_message c3BC c3M).1.handle_message c3BC
        c3M).1.collected_slots =
      (c3S.handle_message c3BC c3M).1.collected_slots +
        c3BC.stakeAt c3M.validator_id :=
  ⟨rfl, rfl, rfl, rfl, by decide, by decide, by decide⟩

/-- Claim C3 (amended): two fully-valid messages with the same validator_id
at the same (height, view_change) add that validator's stake exactly once,
the stored message stays the first one received, and the duplicate call
changes nothing — provided the validator's slot is empty beforehand and the
first message does not cross the supermajority threshold (crossing it emits
a proof and resets the accumulator, after which the duplicate is inserted
afresh, as the counterexample shows). -/
theorem handle_message_duplicate_idempotent (s : ViewChangeCollector)
    (bc : Blockchain) (m1 m2 : ViewChangeMessage)
    (hid : m2.validator_id = m1.validator_id)
    (hfresh : s.actual_view_changes.lookup m1.validator_id = none)
    (hv : s.is_validator = true)
    (hh1 : m1.chain.height = bc.height)
    (hl1 : m1.chain.last_block = bc.last_block_hash)
    (hc1 : m1.chain.view_change = bc.view_change)
    (hval1 : m1.validate bc = .ok ())
    (hh2 : m2.chain.height = bc.height)
    (hl2 : m2.chain.last_block = bc.last_block_hash)
    (hc2 : m2.chain.view_change = bc.view_change)
    (hval2 : m2.validate bc = .ok ())
    (hns : check_supermajority (s.collected_slots + bc.stakeAt m1.validator_id)
      bc.total_slots = false) :
    (s.handle_message bc m1).1.collected_slots =
      s.collected_slots + bc.stakeAt m1.validator_id ∧
    (s.handle_message bc m1).1.actual_view_changes.lookup m1.validator_id =
      some m1 ∧
    ((s.handle_message bc m1).1.handle_message bc m2) =
      ((s.handle_message bc m1).1, .ok none) := by
  have hins : s.insertStep bc m1 =
      { s with
        actual_view_changes := (m1.validator_id, m1) :: s.actual_view_changes,
        collected_slots := s.collected_slots + bc.stakeAt m1.validator_id } := by
    unfold ViewChangeCollector.insertStep
    rw [if_pos (by rw [hfresh]; rfl)]
  have hrun1 := handle_message_valid s bc m1 hv hh1 hl1 hc1 hval1
  have hcoll : (s.insertStep bc m1).collected_slots =
      s.collected_slots + bc.stakeAt m1.validator_id := by rw [hins]
  have hfst1 : (s.handle_message bc m1).1 = s.insertStep bc m1 := by
    rw [hrun1, if_neg (by rw [hcoll]; simp [hns])]
  have hlook : (s.insertStep bc m1).actual_view_changes.lookup m1.validator_id =
      some m1 := by
    rw [hins]
    simp [List.lookup]
  refine ⟨by rw [hfst1, hcoll], by rw [hfst1]; exact hlook, ?_⟩
  have hv1 : (s.insertStep bc m1).is_validator = true := by
    unfold ViewChangeCollector.is_validator
    rw [insertStep_validator_id]
    exact hv
  have hrun2 := handle_message_valid (s.insertStep bc m1) bc m2 hv1 hh2 hl2 hc2
    hval2
  have hins2 : (s.insertStep bc m1).insertStep bc m2 = s.insertStep bc m1 := by
    conv_lhs => rw [ViewChangeCollector.insertStep]
    rw [hid, hlook]
    simp
  rw [hfst1, hrun2, hins2, if_neg (by rw [hcoll]; simp [hns])]

/-- Witness for Claim C3: validator 1 of four (stake 1 each) votes twice
with equal messages; the stake is counted once and the duplicate is a no-op. -/
theorem handle_message_duplicate_idempotent_witness :
    ((ViewChangeCollector.mk [] 0 (some 0) 0 0).handle_message c1BC
        ⟨⟨5, 7, 2⟩, 1, ⟨⟨5, 7, 2⟩, 1⟩⟩).1.collected_slots =
      0 + c1BC.stakeAt 1 ∧
    ((ViewChangeCollector.mk [] 0 (some 0) 0 0).handle_message c1BC
        ⟨⟨5, 7, 2⟩, 1, ⟨⟨5, 7, 2⟩, 1⟩⟩).1.actual_view_changes.lookup 1 =
      some ⟨⟨5, 7, 2⟩, 1, ⟨⟨5, 7, 2⟩, 1⟩⟩ ∧
    (((ViewChangeCollector.mk [] 0 (some 0) 0 0).handle_message c1BC
        ⟨⟨5, 7, 2⟩, 1, ⟨⟨5, 7, 2⟩, 1⟩⟩).1.handle_message c1BC
        ⟨⟨5, 7, 2⟩, 1, ⟨⟨5, 7, 2⟩, 1⟩⟩) =
      (((ViewChangeCollector.mk [] 0 (some 0) 0 0).handle_message c1BC
        ⟨⟨5, 7, 2⟩, 1, ⟨⟨5, 7, 2⟩, 1⟩⟩).1, .ok none) :=
  handle_message_duplicate_idempotent (ViewChangeCollector.mk [] 0 (some 0) 0 0)
    c1BC ⟨⟨5, 7, 2⟩, 1, ⟨⟨5, 7, 2⟩, 1⟩⟩ ⟨⟨5, 7, 2⟩, 1, ⟨⟨5, 7, 2⟩, 1⟩⟩
    rfl rfl rfl rfl rfl rfl rfl rfl rfl rfl rfl (by decide)

/-- Claim C9: handle_timeout leaves the whole collector state unchanged and,
for a validator, returns this node's freshly signed view-change message over
the current tip (a non-validator gets None). The node's own vote is not
accumulated locally. -/
theorem handle_timeout_frame (s : ViewChangeCollector) (bc : Blockchain) :
    s.handle_timeout bc =
      (s, s.validator_id.map fun id =>
        ViewChangeMessage.new (ChainInfo.from_blockchain bc) id s.skey) := by
  unfold ViewChangeCollector.handle_timeout
  cases s.validator_id <;> rfl

/-- Claim C4: after any well-formed sequence of collector operations
starting from ViewChangeCollector::new, collected_slots equals the summed
stake of the validators whose votes are stored in actual_view_changes. -/
theorem collected_slots_matches_stored_stakes (bc0 : Blockchain)
    (pk : PublicKey) (sk : SecretKey) (ops : List CollectorOp)
    (hok : opsOK bc0.validators ops = true) :
    (collectorExec (ViewChangeCollector.new bc0 pk sk) ops).collected_slots =
      stakeSum (valsAfter bc0.validators ops)
        ((collectorExec (ViewChangeCollector.new bc0 pk sk)
            ops).actual_view_changes.map Prod.fst) := by
  have h0 : collectorInv bc0.validators (ViewChangeCollector.new bc0 pk sk) :=
    collectorInv_of_empty _ _ rfl rfl
  exact collectorExec_inv ops bc0.validators _ h0 hok

/-- Witness for Claim C4: a two-message trace (one vote, then a duplicate)
keeps collected_slots equal to the stake of the single stored vote. -/
theorem collected_slots_matches_stored_stakes_witness :
    opsOK c1BC.validators
      [CollectorOp.msg c1BC ⟨⟨5, 7, 2⟩, 1, ⟨⟨5, 7, 2⟩, 1⟩⟩,
       CollectorOp.msg c1BC ⟨⟨5, 7, 2⟩, 1, ⟨⟨5, 7, 2⟩, 1⟩⟩] = true ∧
    (collectorExec (ViewChangeCollector.new c1BC 0 0)
        [CollectorOp.msg c1BC ⟨⟨5, 7, 2⟩, 1, ⟨⟨5, 7, 2⟩, 1⟩⟩,
         CollectorOp.msg c1BC ⟨⟨5, 7, 2⟩, 1, ⟨⟨5, 7, 2⟩, 1⟩⟩]).collected_slots =
      stakeSum
        (valsAfter c1BC.validators
          [CollectorOp.msg c1BC ⟨⟨5, 7, 2⟩, 1, ⟨⟨5, 7, 2⟩, 1⟩⟩,
           CollectorOp.msg c1BC ⟨⟨5, 7, 2⟩, 1, ⟨⟨5, 7, 2⟩, 1⟩⟩])
        ((collectorExec (ViewChangeCollector.new c1BC 0 0)
            [CollectorOp.msg c1BC ⟨⟨5, 7, 2⟩, 1, ⟨⟨5, 7, 2⟩, 1⟩⟩,
             CollectorOp.msg c1BC ⟨⟨5, 7, 2⟩, 1, ⟨⟨5, 7, 2⟩, 1⟩⟩]).actual_view_changes.map
          Prod.fst) :=
  ⟨by decide,
   collected_slots_matches_stored_stakes c1BC 0 0
     [CollectorOp.msg c1BC ⟨⟨5, 7, 2⟩, 1, ⟨⟨5, 7, 2⟩, 1⟩⟩,
      CollectorOp.msg c1BC ⟨⟨5, 7, 2⟩, 1, ⟨⟨5, 7, 2⟩, 1⟩⟩] (by decide)⟩

/-- Claim C5: in every reachable collector state, immediately after
on_new_payment_block or on_new_consensus the vote map is empty and
collected_slots is 0, and on_new_payment_block never changes validator_id.
This holds in particular when the node is not a validator, because a
non-validator collector is already empty. -/
theorem reset_after_block_or_consensus (bc0 : Blockchain) (pk : PublicKey)
    (sk : SecretKey) (ops : List CollectorOp) (bc : Blockchain) :
    ((collectorExec (ViewChangeCollector.new bc0 pk sk)
        ops).on_new_payment_block bc).actual_view_changes = [] ∧
    ((collectorExec (ViewChangeCollector.new bc0 pk sk)
        ops).on_new_payment_block bc).collected_slots = 0 ∧
    ((collectorExec (ViewChangeCollector.new bc0 pk sk)
        ops).on_new_payment_block bc).validator_id =
      (collectorExec (ViewChangeCollector.new bc0 pk sk) ops).validator_id ∧
    ((collectorExec (ViewChangeCollector.new bc0 pk sk)
        ops).on_new_consensus bc).actual_view_changes = [] ∧
    ((collectorExec (ViewChangeCollector.new bc0 pk sk)
        ops).on_new_consensus bc).collected_slots = 0 := by
  have hnv : nonValInv (collectorExec (ViewChangeCollector.new bc0 pk sk) ops) :=
    nonValInv_exec _ ops (nonValInv_new bc0 pk sk)
  set s := collectorExec (ViewChangeCollector.new bc0 pk sk) ops with hs
  refine ⟨?_, ?_, ?_, rfl, rfl⟩ <;>
    · unfold ViewChangeCollector.on_new_payment_block
      split
      · next hval =>
          first
          | exact (hnv (by
              unfold ViewChangeCollector.is_validator at hval
              cases hd : s.validator_id
              · rfl
              · rw [hd] at hval; exact absurd hval (by simp))).1
          | exact (hnv (by
              unfold ViewChangeCollector.is_validator at hval
              cases hd : s.validator_id
              · rfl
              · rw [hd] at hval; exact absurd hval (by simp))).2
          | rfl
      · rfl

/-! ## Kademlia behaviour -/

/-- NodeId (pbc::PublicKey) modelled as a natural number. -/
abbrev NodeId := Nat

/-- Multihash DHT key; keys live in the same metric space as hashed node
ids, modelled as naturals under the XOR metric. -/
abbrev KadKey := Nat

/-- Transport-level peer identity. -/
abbrev PeerId := Nat

/-- A multiaddress. -/
abbrev Addr := Nat

/-- Modelled from the spec: the conversion of a NodeId into its DHT
multihash; injective, modelled as the identity. -/
def into_multihash (n : NodeId) : KadKey := n

/-- Modelled from the spec: the Addresses list is an ordered, deduplicated
address list, each entry tagged with a connected flag. -/
abbrev Addresses := List (Addr × Bool)

/-- Addresses::is_connected: some address is tagged connected. -/
def Addresses.is_connected (l : Addresses) : Bool := l.any Prod.snd

/-- NodeInfo stored in the k-bucket table. -/
structure NodeInfo where
  peer_id : Option PeerId
  addresses : Addresses
deriving DecidableEq

/-- Modelled from the spec: the k-bucket table viewed as an association list
of known nodes; get is a no-promotion lookup. -/
def kbGet (kb : List (NodeId × NodeInfo)) (n : NodeId) : Option NodeInfo :=
  (kb.find? fun p => p.1 == n).map Prod.snd

/-- entry_mut followed by the peer_id assignment in set_peer_id: update the
stored NodeInfo when the node is known, otherwise change nothing. -/
def kbSetPeer : List (NodeId × NodeInfo) → NodeId → PeerId → List (NodeId × NodeInfo)
  | [], _, _ => []
  | (n', ni) :: rest, n, p =>
    if n' = n then (n', { ni with peer_id := some p }) :: rest
    else (n', ni) :: kbSetPeer rest n p

/-- Modelled from the spec: the bounded LRU cache mapping PeerId to NodeId
(lru_time_cache::LruCache with positive capacity). -/
structure Lru where
  capacity : Nat
  entries : List (PeerId × NodeId)
deriving DecidableEq

/-- Modelled from the spec: LRU insertion puts the fresh mapping in front
and truncates to capacity. -/
def Lru.insert (c : Lru) (k : PeerId) (v : NodeId) : Lru :=
  ⟨c.capacity, (k, v) :: (c.entries.filter fun p => p.1 ≠ k).take (c.capacity - 1)⟩

/-- Modelled from the spec: LRU lookup. -/
def Lru.get (c : Lru) (k : PeerId) : Option NodeId :=
  (c.entries.find? fun p => p.1 == k).map Prod.snd

/-- Lookup of the providers recorded for a key (empty when absent),
matching values_providers.get(&key) flattened. -/
def vpLookup (vp : List (KadKey × List NodeId)) (k : KadKey) : List NodeId :=
  ((vp.find? fun p => p.1 == k).map Prod.snd).getD []

/-- values_providers.entry(key).or_insert(default) followed by the guarded
push of a provider: append the provider unless it is already recorded. -/
def vpPush : List (KadKey × List NodeId) → KadKey → NodeId → List (KadKey × List NodeId)
  | [], k, n => [(k, [n])]
  | (k', l) :: rest, k, n =>
    if k' = k then (k', if n ∈ l then l else l ++ [n]) :: rest
    else (k', l) :: vpPush rest k n

/-- The removal in remove_providing: drop the first occurrence of the node
from the providers of the key (no-op when the key is absent). -/
def vpRemoveNode : List (KadKey × List NodeId) → KadKey → NodeId → List (KadKey × List NodeId)
  | [], _, _ => []
  | (k', l) :: rest, k, n =>
    if k' = k then (k', l.erase n) :: rest
    else (k', l) :: vpRemoveNode rest k n

/-- The slice of the Kademlia behaviour state that the provider table,
routing replies and peer-id mapping operate on. -/
structure KadState where
  my_id : NodeId
  kbuckets : List (NodeId × NodeInfo)
  known_peers : Lru
  values_providers : List (KadKey × List NodeId)
  providing_keys : List KadKey
  add_provider : List (KadKey × NodeId)
  num_results : Nat
deriving DecidableEq

/-- The field values set up by Kademlia::new_inner. -/
def KadState.new (my_id : NodeId) : KadState :=
  ⟨my_id, [], ⟨512 * (20 + 1), []⟩, [], [], [], 20⟩

/-- Kademlia::add_providing: record the key as provided by us and make sure
our own id is among its providers. -/
def KadState.add_providing (s : KadState) (key : NodeId) : KadState :=
  { s with
    providing_keys :=
      if into_multihash key ∈ s.providing_keys then s.providing_keys
      else into_multihash key :: s.providing_keys,
    values_providers := vpPush s.values_providers (into_multihash key) s.my_id }

/-- Kademlia::remove_providing: forget the key and remove ourselves from
its provider list. -/
def KadState.remove_providing (s : KadState) (key : KadKey) : KadState :=
  { s with
    providing_keys := s.providing_keys.erase key,
    values_providers := vpRemoveNode s.values_providers key s.my_id }

/-- inject_node_event, AddProvider arm: queue the provider entry, to be
applied on the next poll. -/
def KadState.inject_add_provider (s : KadState) (key : KadKey) (node : NodeId) :
    KadState :=
  { s with add_provider := s.add_provider ++ [(key, node)] }

/-- One entry of the add_provider drain loop at the top of poll: skip our
own id, otherwise record the provider if it is not already present. -/
def drainStep (s : KadState) (kn : KadKey × NodeId) : KadState :=
  if kn.2 = s.my_id then s
  else { s with values_providers := vpPush s.values_providers kn.1 kn.2 }

/-- The add_provider drain at the top of Kademlia::poll. -/
def KadState.poll_drain_add_provider (s : KadState) : KadState :=
  { s.add_provider.foldl drainStep s with add_provider := [] }

/-- Kademlia::set_peer_id: update the routing-table entry when the node is
known, and always record the PeerId-to-NodeId mapping in the LRU. -/
def KadState.set_peer_id (s : KadState) (node_id : NodeId) (peer_id : PeerId) :
    KadState :=
  { s with
    kbuckets := kbSetPeer s.kbuckets node_id peer_id,
    known_peers := s.known_peers.insert peer_id node_id }

/-- Kademlia::addresses_of_peer: resolve the peer through the LRU, then
report the addresses stored in the routing table (empty when either lookup
fails). -/
def KadState.addresses_of_peer (s : KadState) (peer_id : PeerId) : List Addr :=
  match s.known_peers.get peer_id with
  | some node_id =>
    match kbGet s.kbuckets node_id with
    | some ni => ni.addresses.map Prod.fst
    | none => []
  | none => []

/-! ## Provider-table traces (Claim C6) -/

/-- The operations that touch the provider tables. -/
inductive KadOp where
  | addProviding (key : NodeId)
  | removeProviding (key : KadKey)
  | addProvider (key : KadKey) (node : NodeId)
  | pollDrain

/-- State transition of one provider-table operation. -/
def kadStep (s : KadState) : KadOp → KadState
  | .addProviding key => s.add_providing key
  | .removeProviding key => s.remove_providing key
  | .addProvider key node => s.inject_add_provider key node
  | .pollDrain => s.poll_drain_add_provider

/-- Run a sequence of provider-table operations. -/
def kadExec (s : KadState) (ops : List KadOp) : KadState :=
  ops.foldl kadStep s

/-- Provider-table invariant: every key we provide lists our own id, all
provider lists are duplicate-free, and providing_keys is a set. -/
def provInv (s : KadState) : Prop :=
  (∀ k ∈ s.providing_keys, s.my_id ∈ vpLookup s.values_providers k) ∧
  (∀ k, (vpLookup s.values_providers k).Nodup) ∧
  s.providing_keys.Nodup

/-! ## Provider-table lemmas -/

lemma vpLookup_cons (k' : KadKey) (l : List NodeId)
    (rest : List (KadKey × List NodeId)) (k : KadKey) :
    vpLookup ((k', l) :: rest) k = if k' = k then l else vpLookup rest k := by
  by_cases h : k' = k
  · simp [vpLookup, List.find?, h]
  · have hb : (k' == k) = false := beq_eq_false_iff_ne.mpr h
    simp [vpLookup, List.find?, h, hb]

lemma vpLookup_vpPush_self (vp : List (KadKey × List NodeId)) (k : KadKey)
    (n : NodeId) :
    vpLookup (vpPush vp k n) k =
      if n ∈ vpLookup vp k then vpLookup vp k else vpLookup vp k ++ [n] := by
  induction vp with
  | nil => simp [vpPush, vpLookup_cons, vpLookup]
  | cons p rest ih =>
    obtain ⟨k', l⟩ := p
    by_cases h : k' = k
    · subst h
      simp [vpPush, vpLookup_cons]
    · simp [vpPush, h, vpLookup_cons, ih]

lemma vpLookup_vpPush_other (vp : List (KadKey × List NodeId)) (k k' : KadKey)
    (n : NodeId) (h : k' ≠ k) :
    vpLookup (vpPush vp k n) k' = vpLookup vp k' := by
  induction vp with
  | nil => simp [vpPush, vpLookup_cons, vpLookup, Ne.symm h]
  | cons p rest ih =>
    obtain ⟨k0, l⟩ := p
    by_cases h0 : k0 = k
    · subst h0
      simp [vpPush, vpLookup_cons, Ne.symm h]
    · simp [vpPush, h0, vpLookup_cons, ih]

lemma mem_vpLookup_vpPush (vp : List (KadKey × List NodeId)) (k k' : KadKey)
    (n m : NodeId) (h : m ∈ vpLookup vp k') :
    m ∈ vpLookup (vpPush vp k n) k' := by
  by_cases hk : k' = k
  · subst hk
    rw [vpLookup_vpPush_self]
    split
    · exact h
    · exact List.mem_append_left _ h
  · rw [vpLookup_vpPush_other vp k k' n hk]
    exact h

lemma self_mem_vpLookup_vpPush (vp : List (KadKey × List NodeId)) (k : KadKey)
    (n : NodeId) : n ∈ vpLookup (vpPush vp k n) k := by
  rw [vpLookup_vpPush_self]
  split
  · next h => exact h
  · exact List.mem_append_right _ (List.mem_singleton.mpr rfl)

lemma mem_vpLookup_vpPush_inv (vp : List (KadKey × List NodeId)) (k k' : KadKey)
    (n m : NodeId) (h : m ∈ vpLookup (vpPush vp k n) k') :
    m ∈ vpLookup vp k' ∨ (k' = k ∧ m = n) := by
  by_cases hk : k' = k
  · subst hk
    rw [vpLookup_vpPush_self] at h
    split at h
    · exact Or.inl h
    · rcases List.mem_append.mp h with h' | h'
      · exact Or.inl h'
      · exact Or.inr ⟨rfl, List.mem_singleton.mp h'⟩
  · rw [vpLookup_vpPush_other vp k k' n hk] at h
    exact Or.inl h

lemma nodup_vpLookup_vpPush (vp : List (KadKey × List NodeId)) (k k' : KadKey)
    (n : NodeId) (h : (vpLookup vp k').Nodup) :
    (vpLookup (vpPush vp k n) k').Nodup := by
  by_cases hk : k' = k
  · subst hk
    rw [vpLookup_vpPush_self]
    split
    · exact h
    · next hn =>
      refine List.Nodup.append h (List.nodup_singleton n) ?_
      intro a ha hb
      rw [List.mem_singleton] at hb
      subst hb
      exact hn ha
  · rw [vpLookup_vpPush_other vp k k' n hk]
    exact h

lemma vpLookup_vpRemoveNode (vp : List (KadKey × List NodeId)) (k k' : KadKey)
    (n : NodeId) :
    vpLookup (vpRemoveNode vp k n) k' =
      if k' = k then (vpLookup vp k).erase n else vpLookup vp k' := by
  induction vp with
  | nil =>
    simp only [vpRemoveNode, vpLookup]
    split <;> rfl
  | cons p rest ih =>
    obtain ⟨k0, l⟩ := p
    by_cases h0 : k0 = k
    · subst h0
      by_cases hk : k' = k0
      · subst hk
        simp [vpRemoveNode, vpLookup_cons]
      · simp [vpRemoveNode, vpLookup_cons, hk, Ne.symm hk]
    · by_cases hk : k' = k0
      · subst hk
        simp [vpRemoveNode, h0, vpLookup_cons, h0]
      · simp [vpRemoveNode, h0, vpLookup_cons, Ne.symm hk, ih]

/-! ## Claim C6 -/

lemma drainStep_my_id (s : KadState) (kn : KadKey × NodeId) :
    (drainStep s kn).my_id = s.my_id := by
  unfold drainStep
  split <;> rfl

lemma drainStep_providing (s : KadState) (kn : KadKey × NodeId) :
    (drainStep s kn).providing_keys = s.providing_keys := by
  unfold drainStep
  split <;> rfl

lemma provInv_drainStep (s : KadState) (kn : KadKey × NodeId)
    (h : provInv s) : provInv (drainStep s kn) := by
  unfold drainStep
  split
  · exact h
  · refine ⟨?_, ?_, h.2.2⟩
    · intro k hk
      exact mem_vpLookup_vpPush _ _ _ _ _ (h.1 k hk)
    · intro k
      exact nodup_vpLookup_vpPush _ _ _ _ (h.2.1 k)

lemma provInv_drain_fold (l : List (KadKey × NodeId)) :
    ∀ (s : KadState), provInv s → provInv (l.foldl drainStep s) := by
  induction l with
  | nil => intro s h; exact h
  | cons kn rest ih =>
    intro s h
    exact ih (drainStep s kn) (provInv_drainStep s kn h)

lemma provInv_fields (s t : KadState) (hmy : t.my_id = s.my_id)
    (hvp : t.values_providers = s.values_providers)
    (hpk : t.providing_keys = s.providing_keys) (h : provInv s) : provInv t := by
  unfold provInv
  rw [hmy, hvp, hpk]
  exact h

lemma provInv_kadStep (s : KadState) (op : KadOp) (h : provInv s) :
    provInv (kadStep s op) := by
  cases op with
  | addProviding key =>
    refine ⟨?_, ?_, ?_⟩
    · intro k hk
      simp only [kadStep, KadState.add_providing] at hk ⊢
      split at hk
      · exact mem_vpLookup_vpPush _ _ _ _ _ (h.1 k hk)
      · rcases List.mem_cons.mp hk with rfl | hk'
        · exact self_mem_vpLookup_vpPush _ _ _
        · exact mem_vpLookup_vpPush _ _ _ _ _ (h.1 k hk')
    · intro k
      exact nodup_vpLookup_vpPush _ _ _ _ (h.2.1 k)
    · simp only [kadStep, KadState.add_providing]
      split
      · exact h.2.2
      · next hnm => exact List.Nodup.cons hnm h.2.2
  | removeProviding key =>
    refine ⟨?_, ?_, ?_⟩
    · intro k hk
      simp only [kadStep, KadState.remove_providing] at hk ⊢
      have hk' := (List.Nodup.mem_erase_iff h.2.2).mp hk
      rw [vpLookup_vpRemoveNode, if_neg hk'.1]
      exact h.1 k hk'.2
    · intro k
      simp only [kadStep, KadState.remove_providing]
      rw [vpLookup_vpRemoveNode]
      split
      · exact List.Nodup.erase _ (h.2.1 key)
      · exact h.2.1 k
    · exact List.Nodup.erase _ h.2.2
  | addProvider key node =>
    exact provInv_fields s _ rfl rfl rfl h
  | pollDrain =>
    have hfold := provInv_drain_fold s.add_provider s h
    exact provInv_fields _ _ rfl rfl rfl hfold

lemma provInv_kadExec (s : KadState) (ops : List KadOp) (h : provInv s) :
    provInv (kadExec s ops) := by
  induction ops generalizing s with
  | nil => exact h
  | cons op rest ih => exact ih (kadStep s op) (provInv_kadStep s op h)

lemma drain_fold_my_id (l : List (KadKey × NodeId)) :
    ∀ s : KadState, (l.foldl drainStep s).my_id = s.my_id := by
  induction l with
  | nil => intro s; rfl
  | cons kn rest ih =>
    intro s
    rw [List.foldl_cons, ih, drainStep_my_id]

lemma kadStep_my_id (s : KadState) (op : KadOp) :
    (kadStep s op).my_id = s.my_id := by
  cases op with
  | addProviding key => rfl
  | removeProviding key => rfl
  | addProvider key node => rfl
  | pollDrain =>
    simp only [kadStep, KadState.poll_drain_add_provider]
    exact drain_fold_my_id s.add_provider s

lemma kadExec_my_id (ops : List KadOp) :
    ∀ s : KadState, (kadExec s ops).my_id = s.my_id := by
  induction ops with
  | nil => intro s; rfl
  | cons op rest ih =>
    intro s
    rw [kadExec, List.foldl_cons]
    have hr := ih (kadStep s op)
    rw [kadExec] at hr
    rw [hr, kadStep_my_id]

lemma drain_fold_mem (l : List (KadKey × NodeId)) :
    ∀ (s : KadState) (k : KadKey) (n : NodeId),
      n ∈ vpLookup (l.foldl drainStep s).values_providers k →
      n ∈ vpLookup s.values_providers k ∨ ((k, n) ∈ l ∧ n ≠ s.my_id) := by
  induction l with
  | nil =>
    intro s k n h
    exact Or.inl h
  | cons kn rest ih =>
    intro s k n h
    rcases ih (drainStep s kn) k n h with h' | ⟨hmem, hne⟩
    · unfold drainStep at h'
      split at h'
      · exact Or.inl h'
      · next hskip =>
        rcases mem_vpLookup_vpPush_inv _ _ _ _ _ h' with h'' | ⟨hk, hn⟩
        · exact Or.inl h''
        · refine Or.inr ⟨?_, ?_⟩
          · have : (k, n) = kn := by
              obtain ⟨k0, n0⟩ := kn
              simp only at hk hn
              rw [hk, hn]
            rw [this]
            exact List.mem_cons_self _ _
          · rw [hn]
            exact hskip
    · rw [drainStep_my_id] at hne
      exact Or.inr ⟨List.mem_cons_of_mem _ hmem, hne⟩

/-- Claim C6: after any sequence of provider-table operations starting at a
fresh behaviour, every key in providing_keys lists our own id among its
providers and no provider list contains a duplicate; moreover the entries
drained from add_provider into values_providers during poll never include
our own id (whatever the provider lists contain afterwards came either from
before or from a queued entry with a foreign node id). -/
theorem kad_providers_invariant (my : NodeId) (ops : List KadOp) :
    (∀ k ∈ (kadExec (KadState.new my) ops).providing_keys,
      my ∈ vpLookup (kadExec (KadState.new my) ops).values_providers k) ∧
    (∀ k, (vpLookup (kadExec (KadState.new my) ops).values_providers k).Nodup) ∧
    (∀ (s : KadState) (k : KadKey) (n : NodeId),
      n ∈ vpLookup s.poll_drain_add_provider.values_providers k →
      n ∈ vpLookup s.values_providers k ∨
        ((k, n) ∈ s.add_provider ∧ n ≠ s.my_id)) := by
  have h0 : provInv (KadState.new my) := by
    refine ⟨?_, ?_, ?_⟩
    · intro k hk
      exact absurd hk (List.not_mem_nil k)
    · intro k
      exact List.nodup_nil
    · exact List.nodup_nil
  have hinv := provInv_kadExec (KadState.new my) ops h0
  have hmy : (kadExec (KadState.new my) ops).my_id = my :=
    kadExec_my_id ops (KadState.new my)
  refine ⟨?_, ?_, ?_⟩
  · intro k hk
    have hres := hinv.1 k hk
    rw [hmy] at hres
    exact hres
  · exact hinv.2.1
  · intro s k n h
    exact drain_fold_mem s.add_provider s k n h

/-- Witness for Claim C6: after add_providing(5) on a fresh behaviour with
id 7, key 5 is provided and node 7 appears among its providers. -/
theorem kad_providers_invariant_witness :
    5 ∈ (kadExec (KadState.new 7) [KadOp.addProviding 5]).providing_keys ∧
    7 ∈ vpLookup (kadExec (KadState.new 7)
        [KadOp.addProviding 5]).values_providers 5 :=
  ⟨by decide, (kad_providers_invariant 7 [KadOp.addProviding 5]).1 5 (by decide)⟩

/-! ## Routing replies (Claim C7) -/

/-- Ascending XOR distance to a key, the order used by the k-bucket
find_closest iterators. -/
def distLe (key : KadKey) (a b : NodeId) : Prop :=
  Nat.xor (into_multihash a) key ≤ Nat.xor (into_multihash b) key

instance (key : KadKey) : IsTotal NodeId (distLe key) :=
  ⟨fun _ _ => Nat.le_total _ _⟩

instance (key : KadKey) : IsTrans NodeId (distLe key) :=
  ⟨fun _ _ _ => Nat.le_trans⟩

instance (key : KadKey) : DecidableRel (distLe key) :=
  fun _ _ => Nat.decLe _ _

/-- Modelled from the spec: find_closest_with_self yields this node's own id
and every known node id, in ascending XOR distance to the key. -/
def find_closest_with_self (s : KadState) (key : KadKey) : List NodeId :=
  List.insertionSort (distLe key) (s.my_id :: s.kbuckets.map Prod.fst)

/-- Connection state reported in a KadPeer. -/
inductive KadConnectionType where
  | Connected
  | NotConnected
deriving DecidableEq

/-- A peer descriptor as sent on the wire. -/
structure KadPeer where
  node_id : NodeId
  peer_id : Option PeerId
  multiaddrs : List Addr
  connection_ty : KadConnectionType
deriving DecidableEq

/-- The poll parameters build_kad_peer consults for the self descriptor. -/
structure PollParameters where
  local_peer_id : PeerId
  external_addresses : List Addr
deriving DecidableEq

/-- build_kad_peer: describe a node; ourselves from the poll parameters,
a known node from its routing-table entry, an unknown node as disconnected
with no addresses. -/
def build_kad_peer (node_id : NodeId) (par : PollParameters) (my : NodeId)
    (kb : List (NodeId × NodeInfo)) : KadPeer :=
  if node_id = my then
    ⟨node_id, some par.local_peer_id, par.external_addresses, .Connected⟩
  else
    match kbGet kb node_id with
    | some ni =>
      ⟨node_id, ni.peer_id, ni.addresses.map Prod.fst,
       if Addresses.is_connected ni.addresses then .Connected else .NotConnected⟩
    | none => ⟨node_id, none, [], .NotConnected⟩

/-- The target of a query over the DHT key space. -/
inductive QueryTarget where
  | FindPeer (key : KadKey)
  | GetProviders (key : KadKey)
deriving DecidableEq

/-- The replies build_result hands back to the protocol handler. -/
inductive KademliaHandlerIn where
  | FindNodeRes (closer_peers : List KadPeer) (request_id : Nat)
  | GetProvidersRes (closer_peers : List KadPeer) (provider_peers : List KadPeer)
      (request_id : Nat)
deriving DecidableEq

/-- The closer_peers list computed identically by both arms of
build_result: up to num_results closest known nodes (self included),
encoded as KadPeers. -/
def closerPeers (s : KadState) (key : KadKey) (par : PollParameters) :
    List KadPeer :=
  ((find_closest_with_self s key).take s.num_results).map fun n =>
    build_kad_peer n par s.my_id s.kbuckets

/-- Kademlia::build_result. -/
def KadState.build_result (s : KadState) (query : QueryTarget) (rid : Nat)
    (par : PollParameters) : KademliaHandlerIn :=
  match query with
  | .FindPeer key => .FindNodeRes (closerPeers s key par) rid
  | .GetProviders key =>
    .GetProvidersRes (closerPeers s key par)
      ((vpLookup s.values_providers key).map fun n =>
        build_kad_peer n par s.my_id s.kbuckets) rid

lemma build_kad_peer_node_id (n : NodeId) (par : PollParameters) (my : NodeId)
    (kb : List (NodeId × NodeInfo)) :
    (build_kad_peer n par my kb).node_id = n := by
  unfold build_kad_peer
  split
  · rfl
  · split <;> rfl

/-- Claim C7: the FindNodeRes reply contains at most k = 20 KadPeer entries,
drawn from the known nodes plus this node itself, sorted ascending by XOR
distance to the requested key; the GetProvidersRes reply additionally
carries exactly the known providers of the key encoded as KadPeers. -/
theorem build_result_spec (s : KadState) (key : KadKey) (rid : Nat)
    (par : PollParameters) (hk : s.num_results = 20) :
    s.build_result (QueryTarget.FindPeer key) rid par =
      .FindNodeRes (closerPeers s key par) rid ∧
    (closerPeers s key par).length ≤ 20 ∧
    List.Sorted (distLe key) ((closerPeers s key par).map KadPeer.node_id) ∧
    (∀ p ∈ closerPeers s key par,
      p.node_id = s.my_id ∨ p.node_id ∈ s.kbuckets.map Prod.fst) ∧
    s.build_result (QueryTarget.GetProviders key) rid par =
      .GetProvidersRes (closerPeers s key par)
        ((vpLookup s.values_providers key).map fun n =>
          build_kad_peer n par s.my_id s.kbuckets) rid := by
  refine ⟨rfl, ?_, ?_, ?_, rfl⟩
  · unfold closerPeers
    rw [List.length_map, hk]
    exact List.length_take_le _ _
  · unfold closerPeers
    have hmapid :
        (((find_closest_with_self s key).take s.num_results).map fun n =>
            build_kad_peer n par s.my_id s.kbuckets).map KadPeer.node_id =
          (find_closest_with_self s key).take s.num_results := by
      rw [List.map_map]
      have : ∀ n ∈ (find_closest_with_self s key).take s.num_results,
          (KadPeer.node_id ∘ fun n => build_kad_peer n par s.my_id s.kbuckets) n
            = id n := by
        intro n _
        exact build_kad_peer_node_id n par s.my_id s.kbuckets
      rw [List.map_congr_left this, List.map_id]
    rw [hmapid]
    exact List.Pairwise.sublist (List.take_sublist _ _)
      (List.sorted_insertionSort _ _)
  · intro p hp
    unfold closerPeers at hp
    rcases List.mem_map.mp hp with ⟨n, hn, rfl⟩
    rw [build_kad_peer_node_id]
    have hn' : n ∈ find_closest_with_self s key :=
      List.mem_of_mem_take hn
    have hmem : n ∈ s.my_id :: s.kbuckets.map Prod.fst :=
      (List.perm_insertionSort _ _).mem_iff.mp hn'
    exact List.mem_cons.mp hmem

/-- Witness for Claim C7: a behaviour knowing nodes 1 and 2 answers a
FindNodeReq for key 6 with the sorted closer-peers reply. -/
theorem build_result_spec_witness :
    (KadState.mk 3 [(1, ⟨none, []⟩), (2, ⟨some 9, [(4, true)]⟩)]
        ⟨512 * 21, []⟩ [] [] [] 20).build_result (QueryTarget.FindPeer 6) 55
        ⟨42, [11]⟩ =
      .FindNodeRes
        (closerPeers
          (KadState.mk 3 [(1, ⟨none, []⟩), (2, ⟨some 9, [(4, true)]⟩)]
            ⟨512 * 21, []⟩ [] [] [] 20) 6 ⟨42, [11]⟩) 55 ∧
    (closerPeers
        (KadState.mk 3 [(1, ⟨none, []⟩), (2, ⟨some 9, [(4, true)]⟩)]
          ⟨512 * 21, []⟩ [] [] [] 20) 6 ⟨42, [11]⟩).length ≤ 20 :=
  ⟨(build_result_spec _ 6 55 ⟨42, [11]⟩ rfl).1,
   (build_result_spec _ 6 55 ⟨42, [11]⟩ rfl).2.1⟩

/-! ## Claim C10 -/

lemma kbGet_cons (n' : NodeId) (ni : NodeInfo)
    (rest : List (NodeId × NodeInfo)) (n : NodeId) :
    kbGet ((n', ni) :: rest) n = if n' = n then some ni else kbGet rest n := by
  by_cases h : n' = n
  · simp [kbGet, List.find?, h]
  · have hb : (n' == n) = false := beq_eq_false_iff_ne.mpr h
    simp [kbGet, List.find?, h, hb]

lemma kbSetPeer_absent (kb : List (NodeId × NodeInfo)) (n : NodeId) (p : PeerId)
    (h : kbGet kb n = none) : kbSetPeer kb n p = kb := by
  induction kb with
  | nil => rfl
  | cons e rest ih =>
    obtain ⟨n', ni⟩ := e
    rw [kbGet_cons] at h
    by_cases hn : n' = n
    · rw [if_pos hn] at h
      exact absurd h (by simp)
    · rw [if_neg hn] at h
      simp [kbSetPeer, hn, ih h]

/-- Claim C10: set_peer_id always records the PeerId-to-NodeId mapping in
the bounded known_peers LRU, even when the node has no routing-table entry;
in that case no NodeInfo is updated and addresses_of_peer for that peer
resolves to the unknown node and returns the empty list. -/
theorem set_peer_id_unknown_node (s : KadState) (node : NodeId) (peer : PeerId)
    (habs : kbGet s.kbuckets node = none) :
    (s.set_peer_id node peer).known_peers.get peer = some node ∧
    (s.set_peer_id node peer).kbuckets = s.kbuckets ∧
    (s.set_peer_id node peer).addresses_of_peer peer = [] := by
  have hkb : kbSetPeer s.kbuckets node peer = s.kbuckets :=
    kbSetPeer_absent s.kbuckets node peer habs
  refine ⟨?_, ?_, ?_⟩
  · simp [KadState.set_peer_id, Lru.insert, Lru.get, List.find?]
  · simp [KadState.set_peer_id, hkb]
  · simp [KadState.addresses_of_peer, KadState.set_peer_id, Lru.insert,
      Lru.get, List.find?, hkb, habs]

/-- Witness for Claim C10: on a fresh behaviour with empty routing table,
set_peer_id(5, 9) stores the mapping but addresses_of_peer(9) is empty. -/
theorem set_peer_id_unknown_node_witness :
    ((KadState.new 3).set_peer_id 5 9).known_peers.get 9 = some 5 ∧
    ((KadState.new 3).set_peer_id 5 9).kbuckets = (KadState.new 3).kbuckets ∧
    ((KadState.new 3).set_peer_id 5 9).addresses_of_peer 9 = [] :=
  set_peer_id_unknown_node (KadState.new 3) 5 9 rfl

/-! ## Initialization queries (Claim C8) -/

/-- A raw multihash as a byte list (2-byte prefix plus hash bytes). -/
abbrev MultihashBytes := List Nat

/-- Reason a query exists. -/
inductive QueryPurpose where
  | Initialization
  | UserRequest
  | AddProvider (key : MultihashBytes)
deriving DecidableEq

/-- Query targets as queued in queries_to_starts (byte-level keys). -/
inductive KQueryTarget where
  | FindPeer (h : MultihashBytes)
  | GetProviders (h : MultihashBytes)
deriving DecidableEq

/-- gen_random_hash: byte-for-byte translation of the generation loop;
`rnd` supplies the bytes drawn by rand::random. -/
def gen_random_hash (my_id : MultihashBytes) (bucket_num : Nat)
    (rnd : Nat → Nat) : Option MultihashBytes :=
  let my_id_len := my_id.length
  let bits_diff := bucket_num + 1
  if bits_diff > 8 * (my_id_len - 2) then none
  else
    some ((List.range my_id_len).map fun byte =>
      if byte < my_id_len - bits_diff / 8 - 1 then my_id.getD byte 0
      else if byte = my_id_len - bits_diff / 8 - 1 then
        (my_id.getD byte 0 &&& (255 - ((1 <<< (bits_diff % 8)) - 1))) |||
          (rnd byte % 256 &&& ((1 <<< (bits_diff % 8)) - 1))
      else rnd byte % 256)

/-- One iteration of the initialization loop of new_inner: start_query when
gen_random_hash succeeds, skip its bucket otherwise. The accumulator pairs
the queued queries with next_query_id. -/
def initStep (g : Nat → Option MultihashBytes)
    (acc : List (Nat × KQueryTarget × QueryPurpose) × Nat) (n : Nat) :
    List (Nat × KQueryTarget × QueryPurpose) × Nat :=
  match g n with
  | none => acc
  | some h =>
    (acc.1 ++ [(acc.2, KQueryTarget.FindPeer h, QueryPurpose.Initialization)],
     acc.2 + 1)

/-- The queries_to_starts contents produced by the initialization loop of
Kademlia::new_inner: one candidate FIND_NODE per bit of the 512-bit space. -/
def init_queries (my_hash : MultihashBytes) (rnd : Nat → Nat → Nat) :
    List (Nat × KQueryTarget × QueryPurpose) :=
  ((List.range 512).foldl
    (initStep fun n => gen_random_hash my_hash n (rnd n)) ([], 0)).1

/-- External events a finished query can produce. -/
inductive KademliaOut where
  | FindNodeResult (key : MultihashBytes) (closer_peers : List NodeId)
  | GetProvidersResult (key : MultihashBytes) (provider_peers : List NodeId)
      (closer_peers : List NodeId)
deriving DecidableEq

/-- The finished-query dispatch of Kademlia::poll: only UserRequest queries
generate an external event; Initialization is discarded, and AddProvider
only queues internal SendEvents towards the closest peers. -/
def finished_query_event (purpose : QueryPurpose) (target : KQueryTarget)
    (closest : List NodeId) (providers : List NodeId) : Option KademliaOut :=
  match purpose with
  | .Initialization => none
  | .UserRequest =>
    match target with
    | .FindPeer key => some (.FindNodeResult key closest)
    | .GetProviders key => some (.GetProvidersResult key providers closest)
  | .AddProvider _ => none

lemma gen_random_hash_isSome (my_hash : MultihashBytes) (n : Nat)
    (rnd : Nat → Nat) (h66 : my_hash.length = 66) (hn : n < 512) :
    (gen_random_hash my_hash n rnd).isSome = true := by
  unfold gen_random_hash
  rw [h66]
  rw [if_neg (by omega)]
  rfl

lemma initStep_fold_range' (g : Nat → Option MultihashBytes) :
    ∀ (len i : Nat) (acc : List (Nat × KQueryTarget × QueryPurpose)),
      (∀ n, n ∈ List.range' i len → (g n).isSome = true) →
      (List.range' i len).foldl (initStep g) (acc, i) =
        (acc ++ (List.range' i len).map fun n =>
          (n, KQueryTarget.FindPeer ((g n).getD []),
           QueryPurpose.Initialization),
         i + len) := by
  intro len
  induction len with
  | zero =>
    intro i acc _
    simp [List.range']
  | succ len ih =>
    intro i acc h
    rw [List.range'_succ, List.foldl_cons]
    have hg : (g i).isSome = true := by
      apply h
      rw [List.range'_succ]
      exact List.mem_cons_self _ _
    obtain ⟨v, hv⟩ := Option.isSome_iff_exists.mp hg
    have hstep : initStep g (acc, i) i =
        (acc ++ [(i, KQueryTarget.FindPeer v, QueryPurpose.Initialization)],
         i + 1) := by
      simp [initStep, hv]
    rw [hstep]
    have hrest : ∀ n, n ∈ List.range' (i + 1) len → (g n).isSome = true := by
      intro n hn
      apply h
      rw [List.range'_succ]
      exact List.mem_cons_of_mem _ hn
    rw [ih (i + 1) _ hrest]
    rw [List.map_cons, hv]
    apply Prod.ext
    · simp [List.append_assoc]
    · simp
      omega

/-- Claim C8: for a 66-byte node multihash (2-byte prefix plus 64-byte
hash), the initialization loop enqueues exactly 512 FindPeer queries, one
per bit of the ID space with consecutive query ids, each targeting the
randomised hash generated for its bucket and carrying
QueryPurpose::Initialization; and a finished query whose purpose is
Initialization produces no external event in poll. -/
theorem kad_init_queries_spec (my_hash : MultihashBytes)
    (rnd : Nat → Nat → Nat) (h66 : my_hash.length = 66) :
    init_queries my_hash rnd =
      (List.range 512).map (fun n =>
        (n, KQueryTarget.FindPeer ((gen_random_hash my_hash n (rnd n)).getD []),
         QueryPurpose.Initialization)) ∧
    (init_queries my_hash rnd).length = 512 ∧
    (∀ n, n < 512 → (gen_random_hash my_hash n (rnd n)).isSome = true) ∧
    (∀ (t : KQueryTarget) (closest providers : List NodeId),
      finished_query_event QueryPurpose.Initialization t closest providers =
        none) := by
  have hall : ∀ n, n ∈ List.range' 0 512 →
      ((fun n => gen_random_hash my_hash n (rnd n)) n).isSome = true := by
    intro n hn
    have hlt : n < 512 := by
      have := List.mem_range'_1.mp hn
      omega
    exact gen_random_hash_isSome my_hash n (rnd n) h66 hlt
  have hfold := initStep_fold_range'
    (fun n => gen_random_hash my_hash n (rnd n)) 512 0 [] hall
  have hmain : init_queries my_hash rnd =
      (List.range 512).map (fun n =>
        (n, KQueryTarget.FindPeer ((gen_random_hash my_hash n (rnd n)).getD []),
         QueryPurpose.Initialization)) := by
    unfold init_queries
    rw [List.range_eq_range', hfold]
    simp
  refine ⟨hmain, ?_, ?_, ?_⟩
  · rw [hmain, List.length_map, List.length_range]
  · intro n hn
    exact gen_random_hash_isSome my_hash n (rnd n) h66 hn
  · intro t closest providers
    rfl

/-- Witness for Claim C8: the all-zero 66-byte multihash enqueues exactly
512 initialization queries. -/
theorem kad_init_queries_spec_witness :
    (List.replicate 66 0).length = 66 ∧
    (init_queries (List.replicate 66 0) fun _ _ => 0).length = 512 :=
  ⟨by decide,
   (kad_init_queries_spec (List.replicate 66 0) (fun _ _ => 0) (by decide)).2.1⟩
